import Mathlib

/-!
Verification of the scheduling step (`createSchedule`) of
`src/mastra/workflows/task-management-workflow.ts`.

The step is a greedy day-by-day packer: it iterates the (pre-ranked)
task list, accumulating tasks into the current day while
`currentDayHours + task.estimatedHours <= workingHoursPerDay`,
flushing the accumulated day and advancing the calendar otherwise, and
optionally skipping weekend dates.  This file gives a shallow embedding
of that loop and proves/refutes the specified properties.

Modelling conventions:
* JS numbers are modelled as `ℚ` (the scheduler only adds, compares and
  divides task-hour quantities; no rounding of the quantities themselves
  occurs).  The single division `totalScheduledHours / schedule.length`
  is modelled by `jsDiv`, whose `none` result stands for the non-real
  values NaN (`0/0`) and ±Infinity (`x/0`) that JS produces on a zero
  denominator.
* Calendar dates are modelled as day numbers (`ℕ`), with `d % 7`
  playing the role of `Date.getDay()` (`0` = Sunday, `6` = Saturday)
  and `addDays d 1 = d + 1`; the code only ever compares dates for
  identity/order and asks for the weekday, both of which this counting
  preserves.
* The source's unbounded `while (taskIndex < tasks.length)` loop is
  embedded as the fuel-indexed `schedLoop`; `none` means the loop did
  not finish within the given fuel.  Divergence of the source loop on
  an input is rendered as `∀ fuel, … = none`.
-/

namespace TaskSched

/-- A work item exactly as the scheduling step consumes it: `task.id`
and `task.estimatedHours` are the only fields the packing logic reads
(display-only fields `title`, `aiPriority`, `reasoning` feed only the
`notes` string and log lines, which are omitted from the model). -/
structure Task where
  id : String
  estimatedHours : ℚ
  deriving DecidableEq, Repr

/-- One entry of a day's `tasks` array.  The source stores `taskId`,
`startTime` and `endTime` (formatted strings); the model additionally
records the raw hour offsets from which the source computes those
strings, namely the value of `currentDayHours` just before and just
after the task is added.  The display-only `notes` field is omitted. -/
structure Assignment where
  taskId : String
  startOffset : ℚ
  endOffset : ℚ
  startTime : String
  endTime : String
  deriving DecidableEq, Repr

/-- An emitted day: `{ date, tasks, totalHours }` of the source. -/
structure ScheduleDay where
  date : ℕ
  tasks : List Assignment
  totalHours : ℚ
  deriving DecidableEq, Repr

/-- The `summary` object of the source (lines 368-373).  The field is
`totalTasks` in the code (the spec calls it `totalItems`).
`averageHoursPerDay` is an `Option ℚ` because the source's division is
unguarded; see `jsDiv`. -/
structure Summary where
  totalTasks : ℕ
  totalHours : ℚ
  totalDays : ℕ
  averageHoursPerDay : Option ℚ
  deriving DecidableEq, Repr

/-- The scheduler's output: `dailySchedule` plus `summary` (the
LLM-generated `suggestions` string is external and omitted). -/
structure ScheduleResult where
  dailySchedule : List ScheduleDay
  summary : Summary
  deriving DecidableEq, Repr

/-- `addDays` of the source (calendar advance by whole days). -/
def addDays (d : ℕ) (n : ℕ) : ℕ := d + n

/-- `isWeekend` of the source: `getDay()` is 0 (Sunday) or 6 (Saturday). -/
def isWeekend (d : ℕ) : Bool := d % 7 == 0 || d % 7 == 6

/-- JS truncation toward zero, as performed by the `%` operator. -/
def jsTrunc (q : ℚ) : ℤ := if q < 0 then ⌈q⌉ else ⌊q⌋

/-- JS `hours % 1`: the remainder keeps the sign of the dividend. -/
def jsMod1 (q : ℚ) : ℚ := q - jsTrunc q

/-- JS `Math.round`: nearest integer, halves rounding toward +∞. -/
def jsRound (q : ℚ) : ℤ := ⌊q + 1/2⌋

/-- JS `n.toString().padStart(2, "0")`. -/
def pad2 (n : ℤ) : String :=
  let s := toString n
  if s.length < 2 then "0" ++ s else s

/-- `formatTime` of the source (lines 240-244): the hour is
`Math.floor(9 + hours)` (work days are anchored at 09:00), the minute
is `Math.round((hours % 1) * 60)`, both zero-padded to two digits. -/
def formatTime (hours : ℚ) : String :=
  pad2 ⌊(9 : ℚ) + hours⌋ ++ ":" ++ pad2 (jsRound (jsMod1 hours * 60))

/-- JS division `x / y`, with `none` standing for the non-real results
NaN (`0/0`) and ±Infinity (`x/0`, `x ≠ 0`) of a zero denominator. -/
def jsDiv (x y : ℚ) : Option ℚ := if y = 0 then none else some (x / y)

/-- The mutable state of the scheduling loop (lines 247-252):
`schedule`, `currentDate`, `currentDayHours`, `currentDayTasks` and
`totalScheduledHours`; the source's `taskIndex` cursor is modelled by
passing the remaining task list to `schedLoop` instead. -/
structure SchedState where
  schedule : List ScheduleDay
  currentDate : ℕ
  currentDayHours : ℚ
  currentDayTasks : List Assignment
  totalScheduledHours : ℚ
  deriving DecidableEq, Repr

/-- The weekend branch body (lines 256-268): if the accumulated day is
non-empty it is pushed (dated at the current — weekend — date) and the
accumulators are reset; in either case the date advances by one day and
the loop continues without consuming a task. -/
def weekendStep (s : SchedState) : SchedState :=
  if s.currentDayTasks = [] then
    ⟨s.schedule, addDays s.currentDate 1, s.currentDayHours,
      s.currentDayTasks, s.totalScheduledHours⟩
  else
    ⟨s.schedule ++ [⟨s.currentDate, s.currentDayTasks, s.currentDayHours⟩],
      addDays s.currentDate 1, 0, [], s.totalScheduledHours⟩

/-- The fit branch body (lines 273-291): the task is appended to the
current day with start offset `currentDayHours` and end offset
`currentDayHours + task.estimatedHours`, and both accumulators grow. -/
def addTask (s : SchedState) (t : Task) : SchedState :=
  ⟨s.schedule, s.currentDate,
    s.currentDayHours + t.estimatedHours,
    s.currentDayTasks ++
      [⟨t.id, s.currentDayHours, s.currentDayHours + t.estimatedHours,
        formatTime s.currentDayHours,
        formatTime (s.currentDayHours + t.estimatedHours)⟩],
    s.totalScheduledHours + t.estimatedHours⟩

/-- The no-fit branch body (lines 292-305): push the current day if
non-empty, advance the date, reset the accumulators; the task is
retried next iteration. -/
def flushStep (s : SchedState) : SchedState :=
  ⟨(if s.currentDayTasks = [] then s.schedule
    else s.schedule ++ [⟨s.currentDate, s.currentDayTasks, s.currentDayHours⟩]),
    addDays s.currentDate 1, 0, [], s.totalScheduledHours⟩

/-- The `while (taskIndex < tasks.length)` loop (lines 254-306),
fuel-indexed: `none` means the loop did not terminate within `fuel`
iterations (the source has no such bound and simply never returns). -/
def schedLoop (cap : ℚ) (ew : Bool) : ℕ → List Task → SchedState → Option SchedState
  | _, [], s => some s
  | 0, _ :: _, _ => none
  | fuel + 1, t :: rest, s =>
    if ew && isWeekend s.currentDate then
      schedLoop cap ew fuel (t :: rest) (weekendStep s)
    else if s.currentDayHours + t.estimatedHours ≤ cap then
      schedLoop cap ew fuel rest (addTask s t)
    else
      schedLoop cap ew fuel (t :: rest) (flushStep s)

/-- The post-loop push of the last accumulated day (lines 309-315). -/
def finalFlush (s : SchedState) : List ScheduleDay :=
  if s.currentDayTasks = [] then s.schedule
  else s.schedule ++ [⟨s.currentDate, s.currentDayTasks, s.currentDayHours⟩]

/-- The whole scheduling step (lines 213-393, scheduling part): run the
loop from the initial state, push the last day, and build the summary
(lines 368-373) — note the source performs no validation whatsoever of
`workingHoursPerDay` and guards no division. -/
def createSchedule (tasks : List Task) (workingHoursPerDay : ℚ)
    (startDate : ℕ) (excludeWeekends : Bool) (fuel : ℕ) :
    Option ScheduleResult :=
  (schedLoop workingHoursPerDay excludeWeekends fuel tasks
      ⟨[], startDate, 0, [], 0⟩).map
    (fun s =>
      ⟨finalFlush s,
        ⟨tasks.length, s.totalScheduledHours, (finalFlush s).length,
          jsDiv s.totalScheduledHours ((finalFlush s).length : ℚ)⟩⟩)

end TaskSched

namespace TaskSched

/-! ## Divergence of the loop on a task that never fits

The source has no oversized-item override and no capacity validation:
whenever the head task fails the fit test against an *empty* day
(`0 + estimatedHours ≤ cap` false), the no-fit branch pushes nothing,
advances the date and retries the same task against the same empty
accumulator, forever. -/

/-- If the head task does not fit even into an empty day, the loop
(with `excludeWeekends = false`) never finishes, whatever the fuel. -/
theorem schedLoop_stuck (cap : ℚ) (t : Task) (rest : List Task)
    (hbig : ¬ t.estimatedHours ≤ cap) :
    ∀ (fuel : ℕ) (sched : List ScheduleDay) (d : ℕ) (tot : ℚ),
      schedLoop cap false fuel (t :: rest) ⟨sched, d, 0, [], tot⟩ = none := by
  intro fuel
  induction fuel with
  | zero => intro sched d tot; rfl
  | succ n ih =>
    intro sched d tot
    rw [schedLoop]
    simp only [Bool.false_and, Bool.false_eq_true, if_false]
    rw [if_neg (by simpa using hbig)]
    simpa [flushStep, addDays] using ih sched (d + 1) tot

end TaskSched

namespace TaskSched

/-- C1: REFUTED on the code — the claim's required oversized-item policy
is absent.  For the single task of 10 estimated hours against an
8-hour day, the fit check `0 + 10 ≤ 8` fails even on an empty day, the
no-fit branch pushes nothing, advances the date and retries the same
task, so the source's while loop never terminates: the fuel-indexed
model returns `none` for every fuel, the task is never placed on any
day, and no result is produced. -/
theorem createSchedule_oversized_diverges :
    ∀ fuel : ℕ, createSchedule [⟨"t1", 10⟩] 8 0 false fuel = none := by
  intro fuel
  unfold createSchedule
  rw [schedLoop_stuck 8 ⟨"t1", 10⟩ [] (by norm_num) fuel [] 0 0]
  rfl

/-- C2: REFUTED on the code — `createSchedule` performs no validation of
`workingHoursPerDay` and has no `InvalidConfiguration` (or any other)
error path.  With capacity 0 and one 1-hour task the loop simply never
terminates (no error is surfaced, no result produced), and with
capacity 0 and an empty task list a normal `ScheduleResult` is returned
instead of an error. -/
theorem createSchedule_no_invalid_configuration :
    (∀ fuel : ℕ, createSchedule [⟨"t1", 1⟩] 0 0 false fuel = none) ∧
    (∀ fuel : ℕ, createSchedule [] 0 0 false fuel =
      some ⟨[], ⟨0, 0, 0, none⟩⟩) := by
  constructor
  · intro fuel
    unfold createSchedule
    rw [schedLoop_stuck 0 ⟨"t1", 1⟩ [] (by norm_num) fuel [] 0 0]
    rfl
  · intro fuel
    simp [createSchedule, schedLoop, finalFlush, jsDiv]

/-- C5: REFUTED on the code in its `averageHoursPerDay` clause.  For the
empty task list the scheduler does return `days = []`, `totalTasks = 0`,
`totalHours = 0` and `totalDays = 0`, but `averageHoursPerDay` is the
unguarded division `0 / 0`, which in JS is NaN (modelled `none`), not
the claimed 0. -/
theorem createSchedule_empty (cap : ℚ) (start : ℕ) (ew : Bool) (fuel : ℕ) :
    createSchedule [] cap start ew fuel = some ⟨[], ⟨0, 0, 0, none⟩⟩ := by
  simp [createSchedule, schedLoop, finalFlush, jsDiv]

end TaskSched

namespace TaskSched

/-! ## Invariants of the loop state -/

/-- All assignments of a list of emitted days, in emission order. -/
def flatAssign (days : List ScheduleDay) : List Assignment :=
  (days.map ScheduleDay.tasks).flatten

/-- All assignments produced so far: emitted days plus the accumulator. -/
def allAssign (s : SchedState) : List Assignment :=
  flatAssign s.schedule ++ s.currentDayTasks

/-- Sum of the `totalHours` of a list of emitted days. -/
def daySum (days : List ScheduleDay) : ℚ :=
  (days.map ScheduleDay.totalHours).sum

/-- The assignments of a day are contiguous from offset `o`: the first
starts at `o` and each next one starts where the previous ended. -/
def ChainedFrom : ℚ → List Assignment → Prop
  | _, [] => True
  | o, a :: rest => a.startOffset = o ∧ ChainedFrom a.endOffset rest

/-- End offset of a contiguous run that starts at `o`. -/
def chainEnd : ℚ → List Assignment → ℚ
  | o, [] => o
  | _, a :: rest => chainEnd a.endOffset rest

theorem chainedFrom_append {a : Assignment} :
    ∀ {l : List Assignment} {o : ℚ}, ChainedFrom o l →
      a.startOffset = chainEnd o l → ChainedFrom o (l ++ [a]) := by
  intro l
  induction l with
  | nil => intro o _ h; exact ⟨h, trivial⟩
  | cons b bs ih => intro o hc he; exact ⟨hc.1, ih hc.2 he⟩

theorem chainEnd_append {a : Assignment} :
    ∀ {l : List Assignment} {o : ℚ}, chainEnd o (l ++ [a]) = a.endOffset := by
  intro l
  induction l with
  | nil => intro o; rfl
  | cons b bs ih => intro o; exact ih

/-- The state invariant maintained by every iteration of the loop:
capacity of the accumulator and of every emitted day, non-emptiness,
weekday facts, date monotonicity, contiguity of each day's assignments,
and the accounting identity between emitted hours and
`totalScheduledHours`. -/
structure SchedInv (cap : ℚ) (ew : Bool) (s : SchedState) : Prop where
  curCap : s.currentDayTasks ≠ [] → s.currentDayHours ≤ cap
  curZero : s.currentDayTasks = [] → s.currentDayHours = 0
  dayCap : ∀ d ∈ s.schedule, d.totalHours ≤ cap
  dayNonempty : ∀ d ∈ s.schedule, d.tasks ≠ []
  dayWeekend : ew = true → ∀ d ∈ s.schedule, isWeekend d.date = false
  curWeekend : ew = true → s.currentDayTasks ≠ [] → isWeekend s.currentDate = false
  dayLt : ∀ d ∈ s.schedule, d.date < s.currentDate
  datesSorted : List.Pairwise (fun a b => a.date < b.date) s.schedule
  dayChain : ∀ d ∈ s.schedule, ChainedFrom 0 d.tasks
  curChain : ChainedFrom 0 s.currentDayTasks
  curChainEnd : chainEnd 0 s.currentDayTasks = s.currentDayHours
  sumEq : daySum s.schedule + s.currentDayHours = s.totalScheduledHours

theorem schedInv_init (cap : ℚ) (ew : Bool) (start : ℕ) :
    SchedInv cap ew ⟨[], start, 0, [], 0⟩ :=
  ⟨by simp, fun _ => rfl, by simp, by simp, by simp, by simp,
    by simp, by simp, by simp, trivial, rfl, by simp [daySum]⟩

theorem schedInv_weekendStep {cap : ℚ} {ew : Bool} {s : SchedState}
    (hs : SchedInv cap ew s) (hw : (ew && isWeekend s.currentDate) = true) :
    SchedInv cap ew (weekendStep s) := by
  obtain ⟨hew, hwk⟩ := Bool.and_eq_true_iff.mp hw
  have hcur : s.currentDayTasks = [] := by
    by_contra hne
    rw [hs.curWeekend hew hne] at hwk
    exact Bool.false_ne_true hwk
  have hh : s.currentDayHours = 0 := hs.curZero hcur
  unfold weekendStep
  rw [if_pos hcur]
  exact ⟨fun h => absurd hcur h, fun _ => hh, hs.dayCap, hs.dayNonempty,
    hs.dayWeekend, fun _ h => absurd hcur h,
    fun d hd => Nat.lt_succ_of_lt (hs.dayLt d hd), hs.datesSorted,
    hs.dayChain, hs.curChain, hs.curChainEnd, hs.sumEq⟩

theorem schedInv_addTask {cap : ℚ} {ew : Bool} {s : SchedState} {t : Task}
    (hs : SchedInv cap ew s)
    (hnw : ¬ (ew && isWeekend s.currentDate) = true)
    (hfit : s.currentDayHours + t.estimatedHours ≤ cap) :
    SchedInv cap ew (addTask s t) := by
  refine ⟨fun _ => hfit, fun h => absurd h (by simp [addTask]), hs.dayCap,
    hs.dayNonempty, hs.dayWeekend, ?_, hs.dayLt, hs.datesSorted,
    hs.dayChain, ?_, ?_, ?_⟩
  · intro hew _
    subst hew
    simpa using hnw
  · exact chainedFrom_append hs.curChain hs.curChainEnd.symm
  · exact chainEnd_append
  · show daySum s.schedule + (s.currentDayHours + t.estimatedHours) =
      s.totalScheduledHours + t.estimatedHours
    rw [← hs.sumEq]
    ring

theorem schedInv_flushStep {cap : ℚ} {ew : Bool} {s : SchedState}
    (hs : SchedInv cap ew s) : SchedInv cap ew (flushStep s) := by
  unfold flushStep
  by_cases hcur : s.currentDayTasks = []
  · rw [if_pos hcur]
    exact ⟨fun h => absurd rfl h, fun _ => rfl, hs.dayCap, hs.dayNonempty,
      hs.dayWeekend, fun _ h => absurd rfl h,
      fun d hd => Nat.lt_succ_of_lt (hs.dayLt d hd), hs.datesSorted,
      hs.dayChain, trivial, rfl,
      by simpa [hs.curZero hcur] using hs.sumEq⟩
  · rw [if_neg hcur]
    have hmem : ∀ d ∈ s.schedule ++ [(⟨s.currentDate, s.currentDayTasks,
        s.currentDayHours⟩ : ScheduleDay)],
        d ∈ s.schedule ∨ d = ⟨s.currentDate, s.currentDayTasks, s.currentDayHours⟩ := by
      intro d hd
      simpa using hd
    refine ⟨fun h => absurd rfl h, fun _ => rfl, ?_, ?_, ?_,
      fun _ h => absurd rfl h, ?_, ?_, ?_, trivial, rfl, ?_⟩
    · intro d hd
      rcases hmem d hd with h | rfl
      · exact hs.dayCap d h
      · exact hs.curCap hcur
    · intro d hd
      rcases hmem d hd with h | rfl
      · exact hs.dayNonempty d h
      · exact hcur
    · intro hew d hd
      rcases hmem d hd with h | rfl
      · exact hs.dayWeekend hew d h
      · exact hs.curWeekend hew hcur
    · intro d hd
      rcases hmem d hd with h | rfl
      · exact Nat.lt_succ_of_lt (hs.dayLt d h)
      · exact Nat.lt_succ_self _
    · rw [List.pairwise_append]
      exact ⟨hs.datesSorted, List.pairwise_singleton _ _,
        fun a ha b hb => by
          rw [List.mem_singleton] at hb
          subst hb
          exact hs.dayLt a ha⟩
    · intro d hd
      rcases hmem d hd with h | rfl
      · exact hs.dayChain d h
      · exact hs.curChain
    · show daySum (s.schedule ++ [⟨s.currentDate, s.currentDayTasks,
        s.currentDayHours⟩]) + 0 = s.totalScheduledHours
      rw [← hs.sumEq]
      simp [daySum]

end TaskSched

namespace TaskSched

/-- The master invariant is preserved by any terminating run of the loop. -/
theorem schedLoop_inv (cap : ℚ) (ew : Bool) :
    ∀ (fuel : ℕ) (rem : List Task) (s s' : SchedState),
      schedLoop cap ew fuel rem s = some s' →
      SchedInv cap ew s → SchedInv cap ew s' := by
  intro fuel
  induction fuel with
  | zero =>
    intro rem s s' h hs
    cases rem with
    | nil =>
      obtain rfl : s = s' := by simpa [schedLoop] using h
      exact hs
    | cons t rest => simp [schedLoop] at h
  | succ n ih =>
    intro rem s s' h hs
    cases rem with
    | nil =>
      obtain rfl : s = s' := by simpa [schedLoop] using h
      exact hs
    | cons t rest =>
      simp only [schedLoop] at h
      split at h
      next hw => exact ih _ _ _ h (schedInv_weekendStep hs hw)
      next hw =>
        split at h
        next hfit => exact ih _ _ _ h (schedInv_addTask hs hw hfit)
        next => exact ih _ _ _ h (schedInv_flushStep hs)

/-- Relation between an emitted assignment and the task it came from:
matching id, duration recoverable as the offset difference, and both
wall-clock strings computed by `formatTime` from the offsets. -/
def AssignRel (a : Assignment) (t : Task) : Prop :=
  a.taskId = t.id ∧ a.endOffset - a.startOffset = t.estimatedHours ∧
    a.startTime = formatTime a.startOffset ∧
    a.endTime = formatTime a.endOffset

theorem allAssign_weekendStep (s : SchedState) :
    allAssign (weekendStep s) = allAssign s := by
  unfold allAssign weekendStep
  by_cases hcur : s.currentDayTasks = []
  · rw [if_pos hcur]
  · rw [if_neg hcur]
    simp [flatAssign]

theorem allAssign_flushStep (s : SchedState) :
    allAssign (flushStep s) = allAssign s := by
  unfold allAssign flushStep
  by_cases hcur : s.currentDayTasks = []
  · rw [if_pos hcur]
    simp [hcur]
  · rw [if_neg hcur]
    simp [flatAssign]

theorem allAssign_addTask (s : SchedState) (t : Task) :
    allAssign (addTask s t) = allAssign s ++
      [⟨t.id, s.currentDayHours, s.currentDayHours + t.estimatedHours,
        formatTime s.currentDayHours,
        formatTime (s.currentDayHours + t.estimatedHours)⟩] := by
  simp [allAssign, addTask, flatAssign]

/-- Any terminating run extends the produced assignments by a list that
is `AssignRel`-related, element by element and in order, to the list of
tasks it consumed. -/
theorem schedLoop_assign (cap : ℚ) (ew : Bool) :
    ∀ (fuel : ℕ) (rem : List Task) (s s' : SchedState),
      schedLoop cap ew fuel rem s = some s' →
      ∃ news : List Assignment, allAssign s' = allAssign s ++ news ∧
        List.Forall₂ AssignRel news rem := by
  intro fuel
  induction fuel with
  | zero =>
    intro rem s s' h
    cases rem with
    | nil =>
      obtain rfl : s = s' := by simpa [schedLoop] using h
      exact ⟨[], by simp, List.Forall₂.nil⟩
    | cons t rest => simp [schedLoop] at h
  | succ n ih =>
    intro rem s s' h
    cases rem with
    | nil =>
      obtain rfl : s = s' := by simpa [schedLoop] using h
      exact ⟨[], by simp, List.Forall₂.nil⟩
    | cons t rest =>
      simp only [schedLoop] at h
      split at h
      next =>
        obtain ⟨news, heq, hrel⟩ := ih _ _ _ h
        exact ⟨news, by rw [heq, allAssign_weekendStep], hrel⟩
      next =>
        split at h
        next =>
          obtain ⟨news, heq, hrel⟩ := ih _ _ _ h
          refine ⟨(⟨t.id, s.currentDayHours,
              s.currentDayHours + t.estimatedHours,
              formatTime s.currentDayHours,
              formatTime (s.currentDayHours + t.estimatedHours)⟩ :
            Assignment) :: news, ?_,
            List.Forall₂.cons ⟨rfl, by ring, rfl, rfl⟩ hrel⟩
          rw [heq, allAssign_addTask]
          simp
        next =>
          obtain ⟨news, heq, hrel⟩ := ih _ _ _ h
          exact ⟨news, by rw [heq, allAssign_flushStep], hrel⟩

/-- Any terminating run adds exactly the consumed tasks' hours to
`totalScheduledHours`. -/
theorem schedLoop_total (cap : ℚ) (ew : Bool) :
    ∀ (fuel : ℕ) (rem : List Task) (s s' : SchedState),
      schedLoop cap ew fuel rem s = some s' →
      s'.totalScheduledHours =
        s.totalScheduledHours + (rem.map Task.estimatedHours).sum := by
  intro fuel
  induction fuel with
  | zero =>
    intro rem s s' h
    cases rem with
    | nil =>
      obtain rfl : s = s' := by simpa [schedLoop] using h
      simp
    | cons t rest => simp [schedLoop] at h
  | succ n ih =>
    intro rem s s' h
    cases rem with
    | nil =>
      obtain rfl : s = s' := by simpa [schedLoop] using h
      simp
    | cons t rest =>
      simp only [schedLoop] at h
      split at h
      next =>
        rw [ih _ _ _ h]
        simp [weekendStep]
        split <;> rfl
      next =>
        split at h
        next =>
          rw [ih _ _ _ h]
          simp [addTask]
          ring
        next =>
          rw [ih _ _ _ h]
          simp [flushStep]

end TaskSched

namespace TaskSched

/-! ## From the final loop state to the returned result -/

theorem finalFlush_mem {s : SchedState} {d : ScheduleDay}
    (hd : d ∈ finalFlush s) :
    d ∈ s.schedule ∨ (s.currentDayTasks ≠ [] ∧
      d = ⟨s.currentDate, s.currentDayTasks, s.currentDayHours⟩) := by
  unfold finalFlush at hd
  by_cases hcur : s.currentDayTasks = []
  · rw [if_pos hcur] at hd
    exact Or.inl hd
  · rw [if_neg hcur] at hd
    rcases List.mem_append.mp hd with h | h
    · exact Or.inl h
    · exact Or.inr ⟨hcur, List.mem_singleton.mp h⟩

theorem finalFlush_sorted {cap : ℚ} {ew : Bool} {s : SchedState}
    (hs : SchedInv cap ew s) :
    List.Pairwise (fun a b => a.date < b.date) (finalFlush s) := by
  unfold finalFlush
  by_cases hcur : s.currentDayTasks = []
  · rw [if_pos hcur]
    exact hs.datesSorted
  · rw [if_neg hcur, List.pairwise_append]
    exact ⟨hs.datesSorted, List.pairwise_singleton _ _,
      fun a ha b hb => by
        rw [List.mem_singleton] at hb
        subst hb
        exact hs.dayLt a ha⟩

theorem daySum_finalFlush {cap : ℚ} {ew : Bool} {s : SchedState}
    (hs : SchedInv cap ew s) :
    daySum (finalFlush s) = s.totalScheduledHours := by
  unfold finalFlush
  by_cases hcur : s.currentDayTasks = []
  · rw [if_pos hcur]
    have := hs.sumEq
    rw [hs.curZero hcur] at this
    simpa using this
  · rw [if_neg hcur, ← hs.sumEq]
    simp [daySum]

theorem flatAssign_finalFlush (s : SchedState) :
    flatAssign (finalFlush s) = allAssign s := by
  unfold finalFlush allAssign
  by_cases hcur : s.currentDayTasks = []
  · rw [if_pos hcur, hcur]
    simp
  · rw [if_neg hcur]
    simp [flatAssign]

/-- Inversion of `createSchedule`: a returned result comes from a final
loop state satisfying the master invariant, its days are that state's
`finalFlush`, and the summary fields are as the source computes them. -/
theorem createSchedule_inv {tasks : List Task} {cap : ℚ} {start : ℕ}
    {ew : Bool} {fuel : ℕ} {r : ScheduleResult}
    (h : createSchedule tasks cap start ew fuel = some r) :
    ∃ s', schedLoop cap ew fuel tasks ⟨[], start, 0, [], 0⟩ = some s' ∧
      SchedInv cap ew s' ∧
      r.dailySchedule = finalFlush s' ∧
      r.summary.totalTasks = tasks.length ∧
      r.summary.totalHours = s'.totalScheduledHours ∧
      r.summary.totalDays = (finalFlush s').length ∧
      r.summary.averageHoursPerDay =
        jsDiv s'.totalScheduledHours ((finalFlush s').length : ℚ) := by
  unfold createSchedule at h
  rw [Option.map_eq_some'] at h
  obtain ⟨s', hrun, hr⟩ := h
  subst hr
  exact ⟨s', hrun,
    schedLoop_inv cap ew fuel tasks _ s' hrun (schedInv_init cap ew start),
    rfl, rfl, rfl, rfl, rfl⟩

end TaskSched

namespace TaskSched

theorem forallRel_map_id :
    ∀ {l₁ : List Assignment} {l₂ : List Task}, List.Forall₂ AssignRel l₁ l₂ →
      l₁.map Assignment.taskId = l₂.map Task.id := by
  intro l₁ l₂ h
  induction h with
  | nil => rfl
  | cons ha _ ih => simp [ha.1, ih]

theorem forallRel_mem_left :
    ∀ {l₁ : List Assignment} {l₂ : List Task}, List.Forall₂ AssignRel l₁ l₂ →
      ∀ a ∈ l₁, ∃ t, AssignRel a t := by
  intro l₁ l₂ h
  induction h with
  | nil => simp
  | cons ha _ ih =>
    intro a hmem
    rcases List.mem_cons.mp hmem with rfl | hm
    · exact ⟨_, ha⟩
    · exact ih a hm

/-- The assignment lists of the returned days, flattened in order,
stand in `AssignRel` to the input tasks, element by element. -/
theorem createSchedule_rel {tasks : List Task} {cap : ℚ} {start : ℕ}
    {ew : Bool} {fuel : ℕ} {r : ScheduleResult}
    (h : createSchedule tasks cap start ew fuel = some r) :
    List.Forall₂ AssignRel (flatAssign r.dailySchedule) tasks := by
  obtain ⟨s', hrun, _, hdays, _⟩ := createSchedule_inv h
  obtain ⟨news, heq, hrel⟩ := schedLoop_assign cap ew fuel tasks _ s' hrun
  have : allAssign (⟨[], start, 0, [], 0⟩ : SchedState) = [] := by
    simp [allAssign, flatAssign]
  rw [this, List.nil_append] at heq
  rw [hdays, flatAssign_finalFlush, heq]
  exact hrel

end TaskSched

namespace TaskSched

/-- C3: CONFIRMED — every day of a returned schedule satisfies
`totalHours ≤ workingHoursPerDay` or is a single-assignment day whose
one task is oversized.  (In fact the code can only return with the
first disjunct: each day's `totalHours` is the accumulated
`currentDayHours`, whose last update passed the fit check; an oversized
task would keep the loop from ever returning.) -/
theorem createSchedule_capacity (tasks : List Task) (cap : ℚ) (start : ℕ)
    (ew : Bool) (fuel : ℕ) (r : ScheduleResult)
    (h : createSchedule tasks cap start ew fuel = some r) :
    ∀ day ∈ r.dailySchedule, day.totalHours ≤ cap ∨
      (∃ a, day.tasks = [a] ∧ cap < a.endOffset - a.startOffset) := by
  obtain ⟨s', _, hinv, hdays, _⟩ := createSchedule_inv h
  intro day hday
  rw [hdays] at hday
  left
  rcases finalFlush_mem hday with hmem | ⟨hne, rfl⟩
  · exact hinv.dayCap day hmem
  · exact hinv.curCap hne

/-- C4: CONFIRMED — the multiset of task ids across all days'
assignments of a returned schedule is exactly the input id list (each
input task contributes exactly one assignment). -/
theorem createSchedule_complete (tasks : List Task) (cap : ℚ) (start : ℕ)
    (ew : Bool) (fuel : ℕ) (r : ScheduleResult)
    (h : createSchedule tasks cap start ew fuel = some r) :
    List.Perm ((flatAssign r.dailySchedule).map Assignment.taskId)
      (tasks.map Task.id) :=
  forallRel_map_id (createSchedule_rel h) ▸ List.Perm.refl _

/-- C6: CONFIRMED — with `excludeWeekends = true`, no returned day is
dated on a Saturday (`getDay = 6`) or Sunday (`getDay = 0`). -/
theorem createSchedule_weekend (tasks : List Task) (cap : ℚ) (start : ℕ)
    (fuel : ℕ) (r : ScheduleResult)
    (h : createSchedule tasks cap start true fuel = some r) :
    ∀ day ∈ r.dailySchedule, isWeekend day.date = false := by
  obtain ⟨s', _, hinv, hdays, _⟩ := createSchedule_inv h
  intro day hday
  rw [hdays] at hday
  rcases finalFlush_mem hday with hmem | ⟨hne, rfl⟩
  · exact hinv.dayWeekend rfl day hmem
  · exact hinv.curWeekend rfl hne

/-- C7: CONFIRMED — flattening the days' assignments in order yields
exactly the input task ids in input order: the scheduler never
reorders. -/
theorem createSchedule_order (tasks : List Task) (cap : ℚ) (start : ℕ)
    (ew : Bool) (fuel : ℕ) (r : ScheduleResult)
    (h : createSchedule tasks cap start ew fuel = some r) :
    (flatAssign r.dailySchedule).map Assignment.taskId = tasks.map Task.id :=
  forallRel_map_id (createSchedule_rel h)

/-- C8: CONFIRMED — no returned day has an empty assignment list, and
the days' dates are strictly increasing (hence duplicate-free). -/
theorem createSchedule_days_wellformed (tasks : List Task) (cap : ℚ)
    (start : ℕ) (ew : Bool) (fuel : ℕ) (r : ScheduleResult)
    (h : createSchedule tasks cap start ew fuel = some r) :
    (∀ day ∈ r.dailySchedule, day.tasks ≠ []) ∧
      List.Pairwise (fun a b => a < b)
        (r.dailySchedule.map ScheduleDay.date) := by
  obtain ⟨s', _, hinv, hdays, _⟩ := createSchedule_inv h
  constructor
  · intro day hday
    rw [hdays] at hday
    rcases finalFlush_mem hday with hmem | ⟨hne, rfl⟩
    · exact hinv.dayNonempty day hmem
    · exact hne
  · rw [hdays, List.pairwise_map]
    exact finalFlush_sorted hinv

end TaskSched

namespace TaskSched

/-- The result the code produces for an empty task list. -/
def emptyResult : ScheduleResult := ⟨[], ⟨0, 0, 0, none⟩⟩

/-- C9 counterexample: for the empty input the scheduler returns with
`totalDays = 0` but `averageHoursPerDay` is NOT 0 — the code computes
the unguarded `0 / 0`, which is NaN in JS (modelled `none`). -/
theorem createSchedule_avg_nan :
    createSchedule [] 8 0 true 10 = some emptyResult ∧
      emptyResult.summary.totalDays = 0 ∧
      emptyResult.summary.averageHoursPerDay ≠ some 0 := by
  refine ⟨by decide, rfl, by decide⟩

/-- C9 (amended): in every returned result, `summary.totalHours` is
both the sum of the days' `totalHours` and the sum of the input
durations, `summary.totalDays` is the number of days,
`summary.totalTasks` is the number of input tasks, and
`averageHoursPerDay = totalHours / totalDays` whenever at least one
day was emitted (with no days the code yields NaN, not 0). -/
theorem createSchedule_summary (tasks : List Task) (cap : ℚ) (start : ℕ)
    (ew : Bool) (fuel : ℕ) (r : ScheduleResult)
    (h : createSchedule tasks cap start ew fuel = some r) :
    r.summary.totalHours = daySum r.dailySchedule ∧
      r.summary.totalHours = (tasks.map Task.estimatedHours).sum ∧
      r.summary.totalDays = r.dailySchedule.length ∧
      r.summary.totalTasks = tasks.length ∧
      (r.dailySchedule ≠ [] → r.summary.averageHoursPerDay =
        some (r.summary.totalHours / (r.summary.totalDays : ℚ))) := by
  obtain ⟨s', hrun, hinv, hdays, htasks, hhours, hdaysn, havg⟩ :=
    createSchedule_inv h
  have htot := schedLoop_total cap ew fuel tasks _ s' hrun
  refine ⟨?_, ?_, ?_, htasks, ?_⟩
  · rw [hhours, hdays, daySum_finalFlush hinv]
  · rw [hhours, htot]
    simp
  · rw [hdaysn, hdays]
  · intro hne
    rw [hdays] at hne
    have hlen : ((finalFlush s').length : ℚ) ≠ 0 :=
      Nat.cast_ne_zero.mpr (Nat.pos_iff_ne_zero.mp (List.length_pos.mpr hne))
    rw [havg, jsDiv, if_neg hlen, hhours, hdaysn]

unseal Rat.add Rat.sub Rat.mul Rat.inv in
theorem formatTime_zero : formatTime 0 = "09:00" := by decide

theorem mem_flatAssign {days : List ScheduleDay} {d : ScheduleDay}
    {a : Assignment} (hd : d ∈ days) (ha : a ∈ d.tasks) :
    a ∈ flatAssign days := by
  simp only [flatAssign, List.mem_flatten, List.mem_map]
  exact ⟨d.tasks, ⟨d, hd, rfl⟩, ha⟩

theorem chainedFrom_head {l : List Assignment} {o : ℚ}
    (hc : ChainedFrom o l) : ∀ a, l.head? = some a → a.startOffset = o := by
  cases l with
  | nil => intro a h; cases h
  | cons b bs =>
    intro a h
    obtain rfl : b = a := by simpa using h
    exact hc.1

theorem chainedFrom_chain' :
    ∀ {l : List Assignment},
      (∀ a ∈ l, a.startTime = formatTime a.startOffset ∧
        a.endTime = formatTime a.endOffset) →
      ∀ {o : ℚ}, ChainedFrom o l →
        l.Chain' (fun a b => b.startOffset = a.endOffset ∧
          b.startTime = a.endTime) := by
  intro l
  induction l with
  | nil => intro _ o _; simp
  | cons a rest ih =>
    intro times o hc
    cases rest with
    | nil => simp
    | cons b bs =>
      rw [List.chain'_cons]
      refine ⟨⟨hc.2.1, ?_⟩, ?_⟩
      · rw [(times b (by simp)).1, hc.2.1, ← (times a (by simp)).2]
      · exact ih (fun x hx => times x (List.mem_cons_of_mem a hx)) hc.2

/-- C10: CONFIRMED — in every returned day the assignments are
contiguous from the 09:00 anchor: the offsets chain from 0, the first
assignment's `startTime` is `formatTime 0 = "09:00"`, each subsequent
`startTime` equals the previous `endTime`, and each assignment's
offset difference is exactly the corresponding input task's
`estimatedHours`. -/
theorem createSchedule_day_times (tasks : List Task) (cap : ℚ) (start : ℕ)
    (ew : Bool) (fuel : ℕ) (r : ScheduleResult)
    (h : createSchedule tasks cap start ew fuel = some r) :
    formatTime 0 = "09:00" ∧
      (∀ day ∈ r.dailySchedule, ChainedFrom 0 day.tasks ∧
        (∀ a, day.tasks.head? = some a → a.startTime = "09:00") ∧
        day.tasks.Chain' (fun a b => b.startOffset = a.endOffset ∧
          b.startTime = a.endTime)) ∧
      List.Forall₂ (fun a t => a.endOffset - a.startOffset = t.estimatedHours)
        (flatAssign r.dailySchedule) tasks := by
  have hrel := createSchedule_rel h
  obtain ⟨s', _, hinv, hdays, _⟩ := createSchedule_inv h
  have times : ∀ a ∈ flatAssign r.dailySchedule,
      a.startTime = formatTime a.startOffset ∧
      a.endTime = formatTime a.endOffset := by
    intro a ha
    obtain ⟨t, ht⟩ := forallRel_mem_left hrel a ha
    exact ⟨ht.2.2.1, ht.2.2.2⟩
  refine ⟨formatTime_zero, ?_, hrel.imp (fun a t ht => ht.2.1)⟩
  intro day hday
  have hday' := hday
  rw [hdays] at hday'
  have hchain : ChainedFrom 0 day.tasks := by
    rcases finalFlush_mem hday' with hm | ⟨hne, rfl⟩
    · exact hinv.dayChain day hm
    · exact hinv.curChain
  have dtimes : ∀ a ∈ day.tasks, a.startTime = formatTime a.startOffset ∧
      a.endTime = formatTime a.endOffset :=
    fun a ha => times a (mem_flatAssign hday ha)
  refine ⟨hchain, ?_, chainedFrom_chain' dtimes hchain⟩
  intro a hhead
  have hmem : a ∈ day.tasks := by
    cases hl : day.tasks with
    | nil => rw [hl] at hhead; cases hhead
    | cons b bs =>
      rw [hl] at hhead
      obtain rfl : b = a := by simpa using hhead
      simp
  rw [(dtimes a hmem).1, chainedFrom_head hchain a hhead]
  exact formatTime_zero

end TaskSched

namespace TaskSched

/-! ## Concrete runs used as witnesses

`exTasks` is the spec's worked example (durations 4, 2, 6 against an
8-hour day starting on a Monday); `exTasks2` starts on a Friday and
crosses a weekend.  Dates are day numbers with `d % 7 = 0` on Sunday,
so 1 is a Monday and 5 a Friday. -/

def exTasks : List Task := [⟨"t1", 4⟩, ⟨"t2", 2⟩, ⟨"t3", 6⟩]

def exResult : ScheduleResult :=
  ⟨[⟨1, [⟨"t1", 0, 4, "09:00", "13:00"⟩, ⟨"t2", 4, 6, "13:00", "15:00"⟩], 6⟩,
    ⟨2, [⟨"t3", 0, 6, "09:00", "15:00"⟩], 6⟩],
    ⟨3, 12, 2, some 6⟩⟩

def exTasks2 : List Task :=
  [⟨"t1", 2⟩, ⟨"t2", 2⟩, ⟨"t3", 2⟩, ⟨"t4", 2⟩, ⟨"t5", 2⟩]

def exResult2 : ScheduleResult :=
  ⟨[⟨5, [⟨"t1", 0, 2, "09:00", "11:00"⟩, ⟨"t2", 2, 4, "11:00", "13:00"⟩,
      ⟨"t3", 4, 6, "13:00", "15:00"⟩, ⟨"t4", 6, 8, "15:00", "17:00"⟩], 8⟩,
    ⟨8, [⟨"t5", 0, 2, "09:00", "11:00"⟩], 2⟩],
    ⟨5, 10, 2, some 5⟩⟩

unseal Rat.add Rat.sub Rat.mul Rat.inv in
/-- Witness for `createSchedule_capacity` on the spec's worked example. -/
theorem createSchedule_capacity_witness :
    createSchedule exTasks 8 1 true 50 = some exResult ∧
      ∀ day ∈ exResult.dailySchedule, day.totalHours ≤ 8 ∨
        (∃ a, day.tasks = [a] ∧ 8 < a.endOffset - a.startOffset) :=
  ⟨by decide, createSchedule_capacity exTasks 8 1 true 50 exResult (by decide)⟩

unseal Rat.add Rat.sub Rat.mul Rat.inv in
/-- Witness for `createSchedule_complete` on the spec's worked example. -/
theorem createSchedule_complete_witness :
    createSchedule exTasks 8 1 true 50 = some exResult ∧
      List.Perm ((flatAssign exResult.dailySchedule).map Assignment.taskId)
        (exTasks.map Task.id) :=
  ⟨by decide, createSchedule_complete exTasks 8 1 true 50 exResult (by decide)⟩

unseal Rat.add Rat.sub Rat.mul Rat.inv in
/-- Witness for `createSchedule_weekend` on the Friday-start example. -/
theorem createSchedule_weekend_witness :
    createSchedule exTasks2 8 5 true 50 = some exResult2 ∧
      ∀ day ∈ exResult2.dailySchedule, isWeekend day.date = false :=
  ⟨by decide, createSchedule_weekend exTasks2 8 5 50 exResult2 (by decide)⟩

unseal Rat.add Rat.sub Rat.mul Rat.inv in
/-- Witness for `createSchedule_order` on the Friday-start example. -/
theorem createSchedule_order_witness :
    createSchedule exTasks2 8 5 true 50 = some exResult2 ∧
      (flatAssign exResult2.dailySchedule).map Assignment.taskId =
        exTasks2.map Task.id :=
  ⟨by decide, createSchedule_order exTasks2 8 5 true 50 exResult2 (by decide)⟩

unseal Rat.add Rat.sub Rat.mul Rat.inv in
/-- Witness for `createSchedule_days_wellformed` on the Friday-start
example. -/
theorem createSchedule_days_wellformed_witness :
    createSchedule exTasks2 8 5 true 50 = some exResult2 ∧
      ((∀ day ∈ exResult2.dailySchedule, day.tasks ≠ []) ∧
        List.Pairwise (fun a b => a < b)
          (exResult2.dailySchedule.map ScheduleDay.date)) :=
  ⟨by decide,
    createSchedule_days_wellformed exTasks2 8 5 true 50 exResult2 (by decide)⟩

unseal Rat.add Rat.sub Rat.mul Rat.inv in
/-- Witness for `createSchedule_summary` on the spec's worked example. -/
theorem createSchedule_summary_witness :
    createSchedule exTasks 8 1 true 50 = some exResult ∧
      (exResult.summary.totalHours = daySum exResult.dailySchedule ∧
        exResult.summary.totalHours = (exTasks.map Task.estimatedHours).sum ∧
        exResult.summary.totalDays = exResult.dailySchedule.length ∧
        exResult.summary.totalTasks = exTasks.length ∧
        (exResult.dailySchedule ≠ [] → exResult.summary.averageHoursPerDay =
          some (exResult.summary.totalHours /
            (exResult.summary.totalDays : ℚ)))) :=
  ⟨by decide, createSchedule_summary exTasks 8 1 true 50 exResult (by decide)⟩

unseal Rat.add Rat.sub Rat.mul Rat.inv in
/-- Witness for `createSchedule_day_times` on the spec's worked example. -/
theorem createSchedule_day_times_witness :
    createSchedule exTasks 8 1 true 50 = some exResult ∧
      (formatTime 0 = "09:00" ∧
        (∀ day ∈ exResult.dailySchedule, ChainedFrom 0 day.tasks ∧
          (∀ a, day.tasks.head? = some a → a.startTime = "09:00") ∧
          day.tasks.Chain' (fun a b => b.startOffset = a.endOffset ∧
            b.startTime = a.endTime)) ∧
        List.Forall₂
          (fun a t => a.endOffset - a.startOffset = t.estimatedHours)
          (flatAssign exResult.dailySchedule) exTasks) :=
  ⟨by decide, createSchedule_day_times exTasks 8 1 true 50 exResult (by decide)⟩

end TaskSched
